import Mathlib

/-
Shallow embedding of the podcast_rag repository and verification of its
natural-language specification.

Each definition is translated from a source file of the repository:
  * src/audio_scrap/main.py : scraping + chunked Whisper transcription
  * src/embed/main.py       : embedding generation and Pinecone ingestion
  * src/rag_mcp/episode_info.py, src/rag_mcp/main.py : episode lookup tools
  * src/query/prefix.py     : metadata prefix node postprocessor

External effects (ffmpeg, the OpenAI API, Pinecone, the RSS feed, the file
system) are modelled as oracle parameters, so every run of the embedded
code corresponds to one possible behaviour of the environment.
-/

/-! ## Python primitives -/

/-- Characters removed by Python `str.strip()` (ASCII whitespace). -/
def pyIsSpace (c : Char) : Bool :=
  c = ' ' || c = '\t' || c = '\n' || c = '\r' || c = '\x0b' || c = '\x0c'

/-- Python `str.strip()` at the character-list level: drop whitespace from
both ends. -/
def stripList (l : List Char) : List Char :=
  ((l.dropWhile pyIsSpace).reverse.dropWhile pyIsSpace).reverse

/-- Python `str.strip()`. -/
def pyStrip (s : String) : String :=
  String.mk (stripList s.toList)

/-- Python `int()` on a rational number: truncation toward zero. -/
def pyInt (q : ℚ) : ℤ := if 0 ≤ q then ⌊q⌋ else ⌈q⌉

/-! ## src/audio_scrap/main.py — transcribe_audio, chunked path

`transcribe_audio` switches to the chunked path when the file exceeds 25MB.
There it probes the duration, computes
`num_chunks = int(duration / chunk_duration_s) + 1` with
`chunk_duration_s = 10 * 60`, and loops over the chunks: append the chunk
path to `temp_files`, extract with ffmpeg, transcribe with
`prompt=previous_transcription`, accumulate `full_transcription += part + " "`
and set `previous_transcription = part`.  A `finally` block removes every
path in `temp_files` that exists on disk.  The environment is an oracle:
`probe` is the probed duration (`none` = probe raised), `extract i`
returns (file was created, ffmpeg run succeeded), and `transcribe i prompt`
is the API result (`none` = the call raised). -/

def chunk_duration_s : ℕ := 10 * 60

/-- `num_chunks = int(duration / chunk_duration_s) + 1` from
src/audio_scrap/main.py line 133. -/
def numChunks (duration : ℚ) : ℤ := pyInt (duration / (chunk_duration_s : ℚ)) + 1

structure ChunkOracle where
  probe : Option ℚ
  extract : ℕ → Bool × Bool
  transcribe : ℕ → String → Option String

/-- Observable outcome of the chunk loop.  `result` is the accumulated
transcript (`none` = an exception escaped the loop body); `tempFiles` is
the `temp_files` list; `created` the chunk files actually written to disk;
`requests` the (segment index, prompt) pairs passed to the API in order;
`outputs` the per-segment transcripts received. -/
structure ChunkRun where
  result : Option String
  tempFiles : List ℕ
  created : List ℕ
  requests : List (ℕ × String)
  outputs : List String

/-- The `for i in range(num_chunks)` loop of `transcribe_audio`, with the
remaining iteration count as the recursion measure (`i` is the current
chunk index, `prev` the `previous_transcription` variable). -/
def chunkLoop (o : ChunkOracle) : ℕ → String → ℕ → ChunkRun
  | _, _, 0 => ⟨some "", [], [], [], []⟩
  | i, prev, fuel + 1 =>
    if (o.extract i).2 then
      match o.transcribe i prev with
      | some part =>
        ⟨(chunkLoop o (i + 1) part fuel).result.map (fun s => part ++ " " ++ s),
         i :: (chunkLoop o (i + 1) part fuel).tempFiles,
         (if (o.extract i).1 then [i] else []) ++ (chunkLoop o (i + 1) part fuel).created,
         (i, prev) :: (chunkLoop o (i + 1) part fuel).requests,
         part :: (chunkLoop o (i + 1) part fuel).outputs⟩
      | none => ⟨none, [i], if (o.extract i).1 then [i] else [], [(i, prev)], []⟩
    else ⟨none, [i], if (o.extract i).1 then [i] else [], [], []⟩

/-- Outcome of a whole chunked `transcribe_audio` run after the `finally`
block.  `disk` is the set of temporary chunk files still on disk at exit. -/
structure TranscribeResult where
  result : Option String
  disk : List ℕ
  requests : List (ℕ × String)
  outputs : List String
  tempFiles : List ℕ

/-- The chunked path of `transcribe_audio` (src/audio_scrap/main.py lines
125-172): probe, loop, apply `.strip()` on the success path, then run the
`finally` cleanup which removes every `temp_files` entry present on disk. -/
def transcribeChunked (o : ChunkOracle) : TranscribeResult :=
  match o.probe with
  | none => ⟨none, [], [], [], []⟩
  | some duration =>
    let run := chunkLoop o 0 "" (numChunks duration).toNat
    ⟨run.result.map pyStrip,
     run.created.filter (fun f => decide (f ∉ run.tempFiles)),
     run.requests, run.outputs, run.tempFiles⟩

/-! ### Loop invariants -/

theorem chunkLoop_created_subset (o : ChunkOracle) :
    ∀ (fuel i : ℕ) (prev : String), ∀ x ∈ (chunkLoop o i prev fuel).created,
      x ∈ (chunkLoop o i prev fuel).tempFiles := by
  intro fuel
  induction fuel with
  | zero => intro i prev x hx; simp [chunkLoop] at hx
  | succ n ih =>
    intro i prev x hx
    rw [chunkLoop] at hx ⊢
    by_cases hext : (o.extract i).2
    · simp only [hext, if_true] at hx ⊢
      cases htr : o.transcribe i prev with
      | some part =>
        simp only [htr] at hx ⊢
        rcases List.mem_append.mp hx with hl | hr
        · have hxi : x = i := by
            by_cases hc : (o.extract i).1 <;> simp [hc] at hl
            exact hl
          exact hxi ▸ List.mem_cons_self i _
        · exact List.mem_cons_of_mem i (ih (i + 1) part x hr)
      | none =>
        simp only [htr] at hx ⊢
        by_cases hc : (o.extract i).1 <;> simp [hc] at hx ⊢
        exact hx
    · simp only [hext, if_false] at hx ⊢
      by_cases hc : (o.extract i).1 <;> simp [hc] at hx ⊢
      exact hx

theorem chunkLoop_requests_fst (o : ChunkOracle) :
    ∀ (fuel i : ℕ) (prev : String),
      (chunkLoop o i prev fuel).requests.map Prod.fst =
        List.range' i (chunkLoop o i prev fuel).requests.length := by
  intro fuel
  induction fuel with
  | zero => intro i prev; simp [chunkLoop]
  | succ n ih =>
    intro i prev
    rw [chunkLoop]
    by_cases hext : (o.extract i).2
    · simp only [hext, if_true]
      cases htr : o.transcribe i prev with
      | some part => simp [List.range'_succ, ih (i + 1) part]
      | none => simp [List.range'_succ]
    · simp [hext]

theorem chunkLoop_requests_snd (o : ChunkOracle) :
    ∀ (fuel i : ℕ) (prev : String),
      (chunkLoop o i prev fuel).requests.map Prod.snd =
        (prev :: (chunkLoop o i prev fuel).outputs).take
          (chunkLoop o i prev fuel).requests.length := by
  intro fuel
  induction fuel with
  | zero => intro i prev; simp [chunkLoop]
  | succ n ih =>
    intro i prev
    rw [chunkLoop]
    by_cases hext : (o.extract i).2
    · simp only [hext, if_true]
      cases htr : o.transcribe i prev with
      | some part => simp [ih (i + 1) part]
      | none => simp
    · simp [hext]

/-- Unfolding of `transcribeChunked` when duration probing succeeds. -/
theorem transcribeChunked_probe_some (o : ChunkOracle) (d : ℚ) (hp : o.probe = some d) :
    transcribeChunked o =
      ⟨(chunkLoop o 0 "" (numChunks d).toNat).result.map pyStrip,
       (chunkLoop o 0 "" (numChunks d).toNat).created.filter
         (fun f => decide (f ∉ (chunkLoop o 0 "" (numChunks d).toNat).tempFiles)),
       (chunkLoop o 0 "" (numChunks d).toNat).requests,
       (chunkLoop o 0 "" (numChunks d).toNat).outputs,
       (chunkLoop o 0 "" (numChunks d).toNat).tempFiles⟩ := by
  unfold transcribeChunked
  rw [hp]

/-- Unfolding of `transcribeChunked` when duration probing raises. -/
theorem transcribeChunked_probe_none (o : ChunkOracle) (hp : o.probe = none) :
    transcribeChunked o = ⟨none, [], [], [], []⟩ := by
  unfold transcribeChunked
  rw [hp]

/-- On the success path every loop iteration produced exactly one output. -/
theorem chunkLoop_isSome_length (o : ChunkOracle) :
    ∀ (fuel i : ℕ) (prev : String), ((chunkLoop o i prev fuel).result).isSome →
      (chunkLoop o i prev fuel).outputs.length = fuel := by
  intro fuel
  induction fuel with
  | zero => intro i prev _; simp [chunkLoop]
  | succ n ih =>
    intro i prev hs
    rw [chunkLoop] at hs ⊢
    by_cases hext : (o.extract i).2
    · simp only [hext, if_true] at hs ⊢
      cases htr : o.transcribe i prev with
      | some part =>
        simp only [htr] at hs ⊢
        have hs' : ((chunkLoop o (i + 1) part n).result).isSome := by
          cases hres : (chunkLoop o (i + 1) part n).result with
          | none => rw [hres] at hs; simp at hs
          | some u => simp [hres]
        simp [ih (i + 1) part hs']
      | none => simp [htr] at hs
    · simp [hext] at hs

/-- The accumulation `full_transcription += part + " "` of the loop:
each output followed by one space. -/
def joinTrailing : List String → String
  | [] => ""
  | s :: rest => s ++ " " ++ joinTrailing rest

/-- Modelled from the spec: "the per-segment transcription outputs joined
in segment (time) order with a single separating space between consecutive
segment outputs, with no other modification of the segment texts". -/
def specSpaceJoin : List String → String
  | [] => ""
  | [s] => s
  | s :: rest => s ++ " " ++ specSpaceJoin rest

/-- A successful loop result is exactly the trailing-space join of its
outputs. -/
theorem chunkLoop_result_eq (o : ChunkOracle) :
    ∀ (fuel i : ℕ) (prev : String) (t : String),
      (chunkLoop o i prev fuel).result = some t →
      t = joinTrailing (chunkLoop o i prev fuel).outputs := by
  intro fuel
  induction fuel with
  | zero =>
    intro i prev t ht
    simp [chunkLoop] at ht
    simp [chunkLoop, joinTrailing, ht.symm]
  | succ n ih =>
    intro i prev t ht
    rw [chunkLoop] at ht ⊢
    by_cases hext : (o.extract i).2
    · simp only [hext, if_true] at ht ⊢
      cases htr : o.transcribe i prev with
      | some part =>
        simp only [htr] at ht ⊢
        rcases Option.map_eq_some'.mp ht with ⟨u, hu, hmap⟩
        simp only [joinTrailing]
        rw [← hmap, ih (i + 1) part u hu]
      | none => simp [htr] at ht
    · simp [hext] at ht

theorem joinTrailing_eq_specSpaceJoin_append (a : String) (l : List String) :
    joinTrailing (a :: l) = specSpaceJoin (a :: l) ++ " " := by
  induction l generalizing a with
  | nil => simp [joinTrailing, specSpaceJoin]
  | cons b t ih =>
    show a ++ " " ++ joinTrailing (b :: t) = (a ++ " " ++ specSpaceJoin (b :: t)) ++ " "
    rw [ih b, ← String.append_assoc]

theorem dropWhile_append_singleton_space (l : List Char) :
    (l ++ [' ']).dropWhile pyIsSpace =
      if (l.dropWhile pyIsSpace).isEmpty then [] else l.dropWhile pyIsSpace ++ [' '] := by
  induction l with
  | nil => simp [List.dropWhile, pyIsSpace]
  | cons a t ih =>
    by_cases ha : pyIsSpace a
    · simpa [List.dropWhile_cons, ha] using ih
    · simp [List.dropWhile_cons, ha]

theorem stripList_append_space (l : List Char) : stripList (l ++ [' ']) = stripList l := by
  unfold stripList
  rw [dropWhile_append_singleton_space]
  by_cases h : (l.dropWhile pyIsSpace).isEmpty
  · rw [List.isEmpty_iff] at h
    simp [h]
  · rw [if_neg h, List.reverse_append]
    simp [List.dropWhile_cons, pyIsSpace]

theorem pyStrip_append_space (s : String) : pyStrip (s ++ " ") = pyStrip s := by
  unfold pyStrip
  have h : (s ++ " ").toList = s.toList ++ [' '] := by
    simp [String.toList, String.data_append]
  rw [h, stripList_append_space]

theorem pyStrip_joinTrailing (l : List String) :
    pyStrip (joinTrailing l) = pyStrip (specSpaceJoin l) := by
  cases l with
  | nil => rfl
  | cons a t => rw [joinTrailing_eq_specSpaceJoin_append, pyStrip_append_space]

theorem transcribeChunked_result_none (o : ChunkOracle) (hp : o.probe = none) :
    (transcribeChunked o).result = none := by
  rw [transcribeChunked_probe_none o hp]

theorem transcribeChunked_result_eq (o : ChunkOracle) (d : ℚ) (hp : o.probe = some d) :
    (transcribeChunked o).result =
      ((chunkLoop o 0 "" (numChunks d).toNat).result).map pyStrip := by
  rw [transcribeChunked_probe_some o d hp]

theorem transcribeChunked_outputs_eq (o : ChunkOracle) (d : ℚ) (hp : o.probe = some d) :
    (transcribeChunked o).outputs = (chunkLoop o 0 "" (numChunks d).toNat).outputs := by
  rw [transcribeChunked_probe_some o d hp]

theorem transcribeChunked_requests_eq (o : ChunkOracle) (d : ℚ) (hp : o.probe = some d) :
    (transcribeChunked o).requests = (chunkLoop o 0 "" (numChunks d).toNat).requests := by
  rw [transcribeChunked_probe_some o d hp]

theorem transcribeChunked_disk_eq (o : ChunkOracle) (d : ℚ) (hp : o.probe = some d) :
    (transcribeChunked o).disk =
      (chunkLoop o 0 "" (numChunks d).toNat).created.filter
        (fun f => decide (f ∉ (chunkLoop o 0 "" (numChunks d).toNat).tempFiles)) := by
  rw [transcribeChunked_probe_some o d hp]

/-- If a rational is not an integer, its ceiling is its floor plus one. -/
theorem ceil_eq_floor_add_one_of_not_int (x : ℚ) (h : ¬∃ k : ℤ, x = (k : ℚ)) :
    ⌈x⌉ = ⌊x⌋ + 1 := by
  have h1 : ⌈x⌉ ≤ ⌊x⌋ + 1 := Int.ceil_le_floor_add_one x
  have h2 : (⌊x⌋ : ℚ) < x := lt_of_le_of_ne (Int.floor_le x) (fun he => h ⟨⌊x⌋, he.symm⟩)
  have h3 : (⌊x⌋ : ℚ) < (⌈x⌉ : ℚ) := lt_of_lt_of_le h2 (Int.le_ceil x)
  have h4 : ⌊x⌋ < ⌈x⌉ := by exact_mod_cast h3
  omega

/-! ### Claim C1 -/

/-- C1: on every termination path of a chunked `transcribe_audio` run —
normal completion, an error during duration probing, or an
extraction/transcription error at any segment index — zero temporary
segment files created during the loop remain on disk afterwards. -/
theorem transcribe_cleanup_all_paths (o : ChunkOracle) :
    (transcribeChunked o).disk = [] := by
  cases hp : o.probe with
  | none => rw [transcribeChunked_probe_none o hp]
  | some d =>
    rw [transcribeChunked_disk_eq o d hp]
    apply List.filter_eq_nil_iff.mpr
    intro a ha
    have hmem := chunkLoop_created_subset o (numChunks d).toNat 0 "" a ha
    simp [hmem]

/-! ### Claim C3 -/

/-- C3: the requests issued during a chunked transcription are for
segments 0, 1, 2, … in order, and the prompt of the request for segment
`i` is the empty string when `i = 0` and the transcript produced for
segment `i - 1` otherwise (the list `"" :: outputs` read at position `i`). -/
theorem transcribe_context_propagation (o : ChunkOracle) :
    (transcribeChunked o).requests.map Prod.fst =
      List.range (transcribeChunked o).requests.length
    ∧ (transcribeChunked o).requests.map Prod.snd =
      ("" :: (transcribeChunked o).outputs).take (transcribeChunked o).requests.length := by
  cases hp : o.probe with
  | none =>
    rw [transcribeChunked_probe_none o hp]
    exact ⟨rfl, rfl⟩
  | some d =>
    rw [transcribeChunked_requests_eq o d hp, transcribeChunked_outputs_eq o d hp]
    constructor
    · rw [List.range_eq_range']
      exact chunkLoop_requests_fst o (numChunks d).toNat 0 ""
    · exact chunkLoop_requests_snd o (numChunks d).toNat 0 ""

/-! ### Claim C4 -/

/-- All-success environment for a 600-second (exactly 10-minute) file. -/
def c4Oracle : ChunkOracle := ⟨some 600, fun _ => (true, true), fun _ _ => some "x"⟩

/-- C4 counterexample: with probed duration D = 600 s and segment length
S = 600 s, the loop extracts and transcribes 2 segments, while
ceil(D / S) = 1, so the claimed count is wrong at exact multiples. -/
theorem segment_count_counterexample :
    (transcribeChunked c4Oracle).outputs.length = 2
    ∧ ((transcribeChunked c4Oracle).outputs.length : ℤ) ≠
        ⌈(600 : ℚ) / (chunk_duration_s : ℚ)⌉ := by
  have hn0 : numChunks 600 = 2 := by
    norm_num [numChunks, pyInt, chunk_duration_s]
  have hn : (numChunks 600).toNat = 2 := by rw [hn0]; rfl
  have houts := transcribeChunked_outputs_eq c4Oracle 600 rfl
  rw [hn] at houts
  have hceil : ⌈(600 : ℚ) / (chunk_duration_s : ℚ)⌉ = 1 := by
    norm_num [chunk_duration_s]
  rw [houts, hceil]
  constructor
  · decide
  · decide

/-- C4 (amended): the chunked path runs `int(D / S) + 1 = ⌊D / S⌋ + 1`
segments; this equals `⌈D / S⌉` exactly when `D / S` is not an integer
(in particular for every duration that is not an exact multiple of the
600-second segment length), and is one more otherwise. -/
theorem segment_count_amended (o : ChunkOracle) (d : ℚ) (hp : o.probe = some d)
    (hd : 0 ≤ d) (hs : ((transcribeChunked o).result).isSome) :
    ((transcribeChunked o).outputs.length : ℤ) = ⌊d / (chunk_duration_s : ℚ)⌋ + 1
    ∧ (¬(∃ k : ℤ, d / (chunk_duration_s : ℚ) = (k : ℚ)) →
        ((transcribeChunked o).outputs.length : ℤ) = ⌈d / (chunk_duration_s : ℚ)⌉) := by
  rw [transcribeChunked_result_eq o d hp] at hs
  rw [transcribeChunked_outputs_eq o d hp]
  have hq : (0 : ℚ) ≤ d / (chunk_duration_s : ℚ) := by
    apply div_nonneg hd
    simp [chunk_duration_s]
  have hsome : ((chunkLoop o 0 "" (numChunks d).toNat).result).isSome := by
    cases hres : (chunkLoop o 0 "" (numChunks d).toNat).result with
    | none => rw [hres] at hs; simp at hs
    | some u => simp [hres]
  have hlen := chunkLoop_isSome_length o (numChunks d).toNat 0 "" hsome
  rw [hlen]
  have hfl : (0 : ℤ) ≤ ⌊d / (chunk_duration_s : ℚ)⌋ := Int.floor_nonneg.mpr hq
  have hnum : numChunks d = ⌊d / (chunk_duration_s : ℚ)⌋ + 1 := by
    simp [numChunks, pyInt, hq]
  have htoNat : ((numChunks d).toNat : ℤ) = ⌊d / (chunk_duration_s : ℚ)⌋ + 1 := by
    rw [hnum, Int.toNat_of_nonneg (by omega)]
  refine ⟨htoNat, fun hint => ?_⟩
  rw [htoNat, ceil_eq_floor_add_one_of_not_int _ hint]

/-- All-success environment for a 900-second file (one and a half nominal
segments). -/
def w4Oracle : ChunkOracle := ⟨some 900, fun _ => (true, true), fun _ _ => some "x"⟩

theorem segment_count_amended_witness :
    ((transcribeChunked w4Oracle).outputs.length : ℤ) =
        ⌊(900 : ℚ) / (chunk_duration_s : ℚ)⌋ + 1
    ∧ ((transcribeChunked w4Oracle).outputs.length : ℤ) =
        ⌈(900 : ℚ) / (chunk_duration_s : ℚ)⌉ := by
  have hs : ((transcribeChunked w4Oracle).result).isSome := by
    have hn0 : numChunks 900 = 2 := by
      norm_num [numChunks, pyInt, chunk_duration_s]
    have hn : (numChunks 900).toNat = 2 := by rw [hn0]; rfl
    rw [transcribeChunked_result_eq w4Oracle 900 rfl, hn]
    decide
  have hni : ¬(∃ k : ℤ, (900 : ℚ) / (chunk_duration_s : ℚ) = (k : ℚ)) := by
    rintro ⟨k, hk⟩
    have h2 : (2 : ℚ) * (k : ℚ) = 3 := by
      rw [← hk]
      norm_num [chunk_duration_s]
    have h3 : (2 : ℤ) * k = 3 := by exact_mod_cast h2
    omega
  exact ⟨(segment_count_amended w4Oracle 900 rfl (by norm_num) hs).1,
         (segment_count_amended w4Oracle 900 rfl (by norm_num) hs).2 hni⟩

/-! ### Claim C5 -/

/-- All-success environment whose single segment transcript carries a
leading space. -/
def c5Oracle : ChunkOracle := ⟨some 60, fun _ => (true, true), fun _ _ => some " a"⟩

/-- C5 counterexample: the segment outputs are `[" a"]`, whose space-join
with no other modification is `" a"`, but the function returns `"a"`: the
final `.strip()` removes the leading whitespace of the first segment. -/
theorem space_join_counterexample :
    (transcribeChunked c5Oracle).result = some "a"
    ∧ (transcribeChunked c5Oracle).outputs = [" a"]
    ∧ (transcribeChunked c5Oracle).result ≠
        some (specSpaceJoin (transcribeChunked c5Oracle).outputs) := by
  have hn0 : numChunks 60 = 1 := by
    norm_num [numChunks, pyInt, chunk_duration_s]
  have hn : (numChunks 60).toNat = 1 := by rw [hn0]; rfl
  have hres := transcribeChunked_result_eq c5Oracle 60 rfl
  have houts := transcribeChunked_outputs_eq c5Oracle 60 rfl
  rw [hn] at hres houts
  rw [hres, houts]
  refine ⟨by decide, by decide, by decide⟩

/-- C5 (amended): a successful chunked transcription returns the
space-joined concatenation of the per-segment outputs in time order,
additionally stripped of leading and trailing whitespace (Python
`str.strip()`); apart from this stripping at the two ends the segment
texts are unmodified. -/
theorem space_join_amended (o : ChunkOracle) (s : String)
    (h : (transcribeChunked o).result = some s) :
    s = pyStrip (specSpaceJoin (transcribeChunked o).outputs) := by
  cases hp : o.probe with
  | none =>
    rw [transcribeChunked_result_none o hp] at h
    simp at h
  | some d =>
    rw [transcribeChunked_result_eq o d hp] at h
    rw [transcribeChunked_outputs_eq o d hp]
    rcases Option.map_eq_some'.mp h with ⟨t, htres, hts⟩
    rw [← hts, chunkLoop_result_eq o (numChunks d).toNat 0 "" t htres,
       pyStrip_joinTrailing]

/-- All-success environment with a clean one-segment transcript. -/
def w5Oracle : ChunkOracle := ⟨some 60, fun _ => (true, true), fun _ _ => some "hello"⟩

theorem space_join_amended_witness :
    "hello" = pyStrip (specSpaceJoin (transcribeChunked w5Oracle).outputs) := by
  apply space_join_amended w5Oracle "hello"
  have hn0 : numChunks 60 = 1 := by
    norm_num [numChunks, pyInt, chunk_duration_s]
  have hn : (numChunks 60).toNat = 1 := by rw [hn0]; rfl
  rw [transcribeChunked_result_eq w5Oracle 60 rfl, hn]
  decide

/-! ## src/embed/main.py — dedup gate and ingestion run

The Pinecone index is modelled by the stored vectors (each with its
`metadata.episode_title`) plus a per-title failure flag for the existence
query.  The chunker and the embedding API are oracles; the run is
summarised by the list of embedding calls and upserts it performs, each
tagged with the episode title it belongs to. -/

def UPSERT_BATCH_SIZE : ℕ := 100

structure PineVector where
  id : String
  episode_title : String

structure PineconeIndex where
  vectors : List PineVector
  queryFails : String → Bool

/-- Matches returned by `index.query(..., filter = episode_title == title,
top_k = 1)` when the query succeeds. -/
def queryMatches (index : PineconeIndex) (title : String) : List PineVector :=
  (index.vectors.filter (fun v => v.episode_title == title)).take 1

/-- `episode_already_embedded` (src/embed/main.py lines 63-83): true iff
the filtered query returns at least one match; any exception yields false. -/
def episode_already_embedded (index : PineconeIndex) (title : String) : Bool :=
  if index.queryFails title then false
  else decide (0 < (queryMatches index title).length)

/-- One entry of data/transcriptions.json. -/
structure TEpisode where
  title : String
  date : String
  transcription : String

/-- `episodes_to_process = [e for e in transcriptions if not
episode_already_embedded(index, e["title"])]` (lines 95-97). -/
def episodesToProcess (index : PineconeIndex) (transcriptions : List TEpisode) :
    List TEpisode :=
  transcriptions.filter (fun e => !(episode_already_embedded index e.title))

/-- External actions of the ingestion loop. -/
inductive EmbedEvent
  | embedCall (episode_title chunk_text : String)
  | upsert (episode_title : String) (batch : List String)

def eventTitle : EmbedEvent → String
  | EmbedEvent.embedCall t _ => t
  | EmbedEvent.upsert t _ => t

/-- The batch slices `vectors_to_upsert[i : i + UPSERT_BATCH_SIZE]` of the
upsert loop (lines 156-165). -/
def upsertBatches (vectors : List String) : List (List String) :=
  (List.range ((vectors.length + UPSERT_BATCH_SIZE - 1) / UPSERT_BATCH_SIZE)).map
    (fun b => (vectors.drop (b * UPSERT_BATCH_SIZE)).take UPSERT_BATCH_SIZE)

/-- Events performed for one episode of the loop body (lines 108-168):
skip on empty/whitespace transcription, skip on chunker error, one
embedding call per chunk, and — when at least one embedding succeeded —
one upsert per batch.  A chunk whose embedding call raised produces no
vector; `embedOk` tells which chunk texts yielded vectors. -/
def episodeEvents (chunker : String → Option (List String))
    (embedOk : String → Bool) (e : TEpisode) : List EmbedEvent :=
  if e.transcription = "" ∨ pyStrip e.transcription = "" then []
  else
    match chunker e.transcription with
    | none => []
    | some chunks =>
      if (chunks.filter embedOk).isEmpty then
        chunks.map (fun c => EmbedEvent.embedCall e.title c)
      else
        chunks.map (fun c => EmbedEvent.embedCall e.title c) ++
          (upsertBatches (chunks.filter embedOk)).map
            (fun b => EmbedEvent.upsert e.title b)

/-- The whole ingestion run of `main` (src/embed/main.py lines 86-170). -/
def embedMain (index : PineconeIndex) (transcriptions : List TEpisode)
    (chunker : String → Option (List String)) (embedOk : String → Bool) :
    List EmbedEvent :=
  (episodesToProcess index transcriptions).flatMap (episodeEvents chunker embedOk)

theorem eventTitle_episodeEvents (chunker : String → Option (List String))
    (embedOk : String → Bool) (e : TEpisode) :
    ∀ ev ∈ episodeEvents chunker embedOk e, eventTitle ev = e.title := by
  intro ev hev
  unfold episodeEvents at hev
  split at hev
  · simp at hev
  · split at hev
    · simp at hev
    · split at hev
      · rcases List.mem_map.mp hev with ⟨c, _, rfl⟩
        rfl
      · rcases List.mem_append.mp hev with h | h
        · rcases List.mem_map.mp h with ⟨c, _, rfl⟩
          rfl
        · rcases List.mem_map.mp h with ⟨b, _, rfl⟩
          rfl

/-! ### Claim C2 -/

/-- C2: once at least one vector with `episode_title = X` exists in the
index and the existence query for `X` succeeds, a subsequent ingestion run
filters every transcription titled `X` out before processing, and performs
zero embedding calls and zero upserts for it. -/
theorem dedup_gate (index : PineconeIndex) (transcriptions : List TEpisode)
    (chunker : String → Option (List String)) (embedOk : String → Bool) (X : String)
    (hvec : ∃ v ∈ index.vectors, v.episode_title = X)
    (hq : index.queryFails X = false) :
    (∀ e ∈ episodesToProcess index transcriptions, e.title ≠ X)
    ∧ (∀ ev ∈ embedMain index transcriptions chunker embedOk, eventTitle ev ≠ X) := by
  have hemb : episode_already_embedded index X = true := by
    rcases hvec with ⟨v, hv, hvt⟩
    have hm : v ∈ index.vectors.filter (fun w => w.episode_title == X) :=
      List.mem_filter.mpr ⟨hv, by simp [hvt]⟩
    have hlen : 0 < (index.vectors.filter (fun w => w.episode_title == X)).length :=
      List.length_pos.mpr (List.ne_nil_of_mem hm)
    have hql : 0 < (queryMatches index X).length := by
      unfold queryMatches
      rw [List.length_take]
      omega
    unfold episode_already_embedded
    rw [hq]
    simp [hql]
  have hfilter : ∀ e ∈ episodesToProcess index transcriptions, e.title ≠ X := by
    intro e he heq
    have hpred := (List.mem_filter.mp he).2
    rw [heq, hemb] at hpred
    simp at hpred
  refine ⟨hfilter, fun ev hev => ?_⟩
  rcases List.mem_flatMap.mp hev with ⟨e, heP, hevE⟩
  rw [eventTitle_episodeEvents chunker embedOk e ev hevE]
  exact hfilter e heP

def c2Index : PineconeIndex := ⟨[⟨"v1", "Ep A"⟩], fun _ => false⟩

def c2Transcriptions : List TEpisode :=
  [⟨"Ep A", "2025-01-01", "hello world"⟩, ⟨"Ep B", "2025-01-08", "more text"⟩]

theorem dedup_gate_witness :
    (∀ e ∈ episodesToProcess c2Index c2Transcriptions, e.title ≠ "Ep A")
    ∧ (∀ ev ∈ embedMain c2Index c2Transcriptions (fun t => some [t]) (fun _ => true),
        eventTitle ev ≠ "Ep A") :=
  dedup_gate c2Index c2Transcriptions (fun t => some [t]) (fun _ => true) "Ep A"
    ⟨⟨"v1", "Ep A"⟩, List.mem_singleton.mpr rfl, rfl⟩ rfl

/-! ### Claim C8 -/

/-- C8: when the existence query for a title raises,
`episode_already_embedded` returns false, so an episode with that title
stays in the to-process list — the check fails open toward re-processing,
not toward skipping. -/
theorem query_failure_fail_open (index : PineconeIndex) (title : String)
    (transcriptions : List TEpisode) (hq : index.queryFails title = true) :
    episode_already_embedded index title = false
    ∧ ∀ e ∈ transcriptions, e.title = title →
        e ∈ episodesToProcess index transcriptions := by
  have hfalse : episode_already_embedded index title = false := by
    unfold episode_already_embedded
    rw [hq]
    simp
  refine ⟨hfalse, fun e he heq => ?_⟩
  apply List.mem_filter.mpr
  refine ⟨he, ?_⟩
  rw [heq, hfalse]
  rfl

def c8Index : PineconeIndex := ⟨[⟨"v1", "Ep A"⟩], fun _ => true⟩

theorem query_failure_fail_open_witness :
    episode_already_embedded c8Index "Ep A" = false
    ∧ ∀ e ∈ c2Transcriptions, e.title = "Ep A" →
        e ∈ episodesToProcess c8Index c2Transcriptions :=
  query_failure_fail_open c8Index "Ep A" c2Transcriptions rfl

/-! ## src/audio_scrap/main.py — main (per-run cap and selection order) -/

def EPISODES_TO_PROCESS : ℕ := 4

structure AudioEpisode where
  title : String
  url : String
  date : ℤ

/-- Newest-first comparison used by
`episodes_to_process.sort(key=lambda x: x["date"], reverse=True)`
(publish datetimes are modelled by their ordinal, only their order is
used). -/
def dateDesc (a b : AudioEpisode) : Prop := b.date ≤ a.date

instance : DecidableRel dateDesc :=
  fun a b => inferInstanceAs (Decidable (b.date ≤ a.date))

instance : IsTotal AudioEpisode dateDesc := ⟨fun a b => le_total b.date a.date⟩

instance : IsTrans AudioEpisode dateDesc := ⟨fun _ _ _ hab hbc => le_trans hbc hab⟩

/-- `[e for e in episodes if e["title"] not in processed_titles]`
(src/audio_scrap/main.py line 194). -/
def newEpisodes (episodes : List AudioEpisode) (processed_titles : List String) :
    List AudioEpisode :=
  episodes.filter (fun e => !(processed_titles.contains e.title))

/-- The episodes the `main` loop iterates over: not-yet-processed episodes
sorted newest-first, capped by `[:EPISODES_TO_PROCESS]` (lines 196-202). -/
def episodesToTranscribe (episodes : List AudioEpisode)
    (processed_titles : List String) : List AudioEpisode :=
  (List.insertionSort dateDesc (newEpisodes episodes processed_titles)).take
    EPISODES_TO_PROCESS

/-- The episodes actually transcribed in one run: the selected ones whose
download succeeded (a failed download hits `continue` before
`transcribe_audio`). -/
def transcribedThisRun (episodes : List AudioEpisode)
    (processed_titles : List String) (downloadOk : AudioEpisode → Bool) :
    List AudioEpisode :=
  (episodesToTranscribe episodes processed_titles).filter downloadOk

/-! ### Claim C9 -/

/-- C9: at most `EPISODES_TO_PROCESS = 4` episodes are transcribed in one
run; the selection is drawn from the not-yet-processed episodes, is in
newest-publish-date-first order, and every unselected not-yet-processed
episode has a date at most that of every selected one. -/
theorem per_run_cap_and_selection (episodes : List AudioEpisode)
    (processed_titles : List String) (downloadOk : AudioEpisode → Bool) :
    EPISODES_TO_PROCESS = 4
    ∧ (transcribedThisRun episodes processed_titles downloadOk).length ≤ 4
    ∧ List.Sorted dateDesc (episodesToTranscribe episodes processed_titles)
    ∧ (∀ x ∈ episodesToTranscribe episodes processed_titles,
        x ∈ newEpisodes episodes processed_titles)
    ∧ (∀ x ∈ episodesToTranscribe episodes processed_titles,
        ∀ y ∈ newEpisodes episodes processed_titles,
          y ∉ episodesToTranscribe episodes processed_titles → y.date ≤ x.date) := by
  have hsortedL : List.Sorted dateDesc
      (List.insertionSort dateDesc (newEpisodes episodes processed_titles)) :=
    List.sorted_insertionSort dateDesc _
  have hperm := List.perm_insertionSort dateDesc (newEpisodes episodes processed_titles)
  refine ⟨rfl, ?_, ?_, ?_, ?_⟩
  · calc (transcribedThisRun episodes processed_titles downloadOk).length
        ≤ (episodesToTranscribe episodes processed_titles).length :=
          List.length_filter_le _ _
      _ ≤ 4 := by
          unfold episodesToTranscribe
          exact List.length_take_le _ _
  · exact List.Pairwise.sublist (List.take_sublist _ _) hsortedL
  · intro x hx
    exact hperm.mem_iff.mp (List.mem_of_mem_take hx)
  · intro x hx y hy hyn
    have hyL : y ∈ List.insertionSort dateDesc (newEpisodes episodes processed_titles) :=
      hperm.mem_iff.mpr hy
    have hsplit := List.take_append_drop EPISODES_TO_PROCESS
      (List.insertionSort dateDesc (newEpisodes episodes processed_titles))
    have hyd : y ∈ (List.insertionSort dateDesc
        (newEpisodes episodes processed_titles)).drop EPISODES_TO_PROCESS := by
      rcases List.mem_append.mp (by rw [hsplit]; exact hyL) with h | h
      · exact absurd h hyn
      · exact h
    have hp : List.Pairwise dateDesc
        ((List.insertionSort dateDesc (newEpisodes episodes processed_titles)).take
            EPISODES_TO_PROCESS ++
          (List.insertionSort dateDesc (newEpisodes episodes processed_titles)).drop
            EPISODES_TO_PROCESS) := by
      rw [hsplit]
      exact hsortedL
    exact (List.pairwise_append.mp hp).2.2 x hx y hyd

def c9Episodes : List AudioEpisode :=
  [⟨"E1", "u1", 10⟩, ⟨"E2", "u2", 50⟩, ⟨"E3", "u3", 30⟩,
   ⟨"E4", "u4", 40⟩, ⟨"E5", "u5", 20⟩]

theorem per_run_cap_and_selection_witness :
    EPISODES_TO_PROCESS = 4
    ∧ (transcribedThisRun c9Episodes ["E3"] (fun _ => true)).length ≤ 4
    ∧ List.Sorted dateDesc (episodesToTranscribe c9Episodes ["E3"])
    ∧ (∀ x ∈ episodesToTranscribe c9Episodes ["E3"],
        x ∈ newEpisodes c9Episodes ["E3"])
    ∧ (∀ x ∈ episodesToTranscribe c9Episodes ["E3"],
        ∀ y ∈ newEpisodes c9Episodes ["E3"],
          y ∉ episodesToTranscribe c9Episodes ["E3"] → y.date ≤ x.date) :=
  per_run_cap_and_selection c9Episodes ["E3"] (fun _ => true)

/-! ## src/rag_mcp/episode_info.py — date parsing and episode lookup

Calendar dates are represented by their proleptic Gregorian ordinal
(Python `date.toordinal()`), so `date` comparison and `timedelta`
subtraction coincide with integer comparison and subtraction.  ISO date
strings compare lexicographically in date order, so the source's sort by
ISO string is the sort by ordinal. -/

def isLeap (y : ℕ) : Bool := y % 4 == 0 && (y % 100 != 0 || y % 400 == 0)

def daysInMonth (y m : ℕ) : ℕ :=
  if m = 2 then (if isLeap y then 29 else 28)
  else if m = 4 ∨ m = 6 ∨ m = 9 ∨ m = 11 then 30
  else 31

def daysBeforeMonth (y m : ℕ) : ℕ :=
  ((List.range (m - 1)).map (fun i => daysInMonth y (i + 1))).sum

/-- Python `date(y, m, d).toordinal()`: days before year `y` plus days
before month `m` plus the day of month. -/
def toOrdinal (y m d : ℕ) : ℤ :=
  ((365 * (y - 1) + (y - 1) / 4 + (y - 1) / 400 + daysBeforeMonth y m + d
      - (y - 1) / 100 : ℕ) : ℤ)

def digitChar (c : Char) : Bool := '0' ≤ c && c ≤ '9'

/-- A `strptime` numeric field of between `lo` and `hi` digits. -/
def parseField (lo hi : ℕ) (l : List Char) : Option ℕ :=
  if lo ≤ l.length ∧ l.length ≤ hi ∧ l ≠ [] ∧ l.all digitChar then
    some (l.foldl (fun a c => a * 10 + (c.toNat - 48)) 0)
  else none

def splitOnChar (c : Char) : List Char → List (List Char)
  | [] => [[]]
  | ch :: rest =>
    if ch = c then [] :: splitOnChar c rest
    else
      match splitOnChar c rest with
      | [] => [[ch]]
      | g :: gs => (ch :: g) :: gs

/-- Validity check performed by `strptime` on a parsed calendar date. -/
def validDate (y m d : ℕ) : Bool :=
  decide (1 ≤ y ∧ y ≤ 9999 ∧ 1 ≤ m ∧ m ≤ 12 ∧ 1 ≤ d ∧ d ≤ daysInMonth y m)

/-- A year-month-day format with the given separator (`%Y?%m?%d`). -/
def fmtYMD (sep : Char) (l : List Char) : Option (ℕ × ℕ × ℕ) :=
  match splitOnChar sep l with
  | [ys, ms, ds] => do
    let y ← parseField 1 4 ys
    let m ← parseField 1 2 ms
    let d ← parseField 1 2 ds
    if validDate y m d then some (y, m, d) else none
  | _ => none

/-- A day-month-year format with the given separator (`%d?%m?%Y`). -/
def fmtDMY (sep : Char) (l : List Char) : Option (ℕ × ℕ × ℕ) :=
  match splitOnChar sep l with
  | [ds, ms, ys] => do
    let d ← parseField 1 2 ds
    let m ← parseField 1 2 ms
    let y ← parseField 1 4 ys
    if validDate y m d then some (y, m, d) else none
  | _ => none

/-- The `%Y-%m-%dT%H:%M:%S` format; the time of day is validated and then
dropped, since every caller immediately applies `.date()`. -/
def fmtYMDTime (l : List Char) : Option (ℕ × ℕ × ℕ) :=
  match splitOnChar 'T' l with
  | [dpart, tpart] =>
    match splitOnChar ':' tpart with
    | [hs, ms, ss] => do
      let ymd ← fmtYMD '-' dpart
      let h ← parseField 1 2 hs
      let mi ← parseField 1 2 ms
      let s ← parseField 1 2 ss
      if h ≤ 23 ∧ mi ≤ 59 ∧ s ≤ 61 then some ymd else none
    | _ => none
  | _ => none

/-- `parse_date_input` (src/rag_mcp/episode_info.py lines 94-111): try the
five formats in order, return the parsed calendar date as an ordinal, or
`none` when every format fails. -/
def parse_date_input (s : String) : Option ℤ :=
  (fmtYMD '-' s.toList <|> fmtYMDTime s.toList <|> fmtDMY '/' s.toList <|>
      fmtDMY '-' s.toList <|> fmtYMD '/' s.toList).map
    (fun t => toOrdinal t.1 t.2.1 t.2.2)

/-- An episode of the parsed RSS feed, reduced to the fields the lookup
tools use: title and publish date (ordinal of `episode["date"].date()`). -/
structure FeedEpisode where
  title : String
  date : ℤ

/-- Resolution of `end_date` (src/rag_mcp/episode_info.py lines 127-134):
an empty argument defaults to today, an unparseable one raises. -/
def resolveEnd (today : ℤ) (end_date_str : String) : Except String ℤ :=
  if end_date_str = "" then Except.ok today
  else
    match parse_date_input end_date_str with
    | some d => Except.ok d
    | none => Except.error ("Invalid end_date format: " ++ end_date_str)

/-- Resolution of `start_date` (lines 136-144): an empty argument defaults
to `today - timedelta(days=90)`, an unparseable one raises. -/
def resolveStart (today : ℤ) (start_date_str : String) : Except String ℤ :=
  if start_date_str = "" then Except.ok (today - 90)
  else
    match parse_date_input start_date_str with
    | some d => Except.ok d
    | none => Except.error ("Invalid start_date format: " ++ start_date_str)

/-- Ascending order on (episode_name, date) pairs by date, the sort key of
`filtered_episodes.sort(key=lambda e: e["date"])`. -/
def dateLe (a b : String × ℤ) : Prop := a.2 ≤ b.2

instance : DecidableRel dateLe := fun a b => inferInstanceAs (Decidable (a.2 ≤ b.2))

instance : IsTotal (String × ℤ) dateLe := ⟨fun a b => le_total a.2 b.2⟩

instance : IsTrans (String × ℤ) dateLe := ⟨fun _ _ _ hab hbc => le_trans hab hbc⟩

/-- `list_episodes_in_range` (src/rag_mcp/episode_info.py lines 114-166).
`today` is `datetime.now().date()` and `feed` is what
`fetch_podcast_episodes()` would return; the fetch only happens after both
validation checks pass, so the two error paths do not depend on `feed`. -/
def list_episodes_in_range (today : ℤ) (start_date_str end_date_str : String)
    (feed : List FeedEpisode) : Except String (List (String × ℤ)) :=
  match resolveEnd today end_date_str with
  | Except.error msg => Except.error msg
  | Except.ok endDate =>
    match resolveStart today start_date_str with
    | Except.error msg => Except.error msg
    | Except.ok startDate =>
      if endDate - startDate > 366 then
        Except.error "The date range cannot exceed 12 months."
      else if startDate > endDate then
        Except.error "start_date cannot be after end_date."
      else
        Except.ok (List.insertionSort dateLe
          (feed.filterMap (fun ep =>
            if startDate ≤ ep.date ∧ ep.date ≤ endDate then
              some (ep.title, ep.date)
            else none)))

theorem list_episodes_in_range_resolved (today : ℤ) (s e : String) (ds de : ℤ)
    (feed : List FeedEpisode) (hs : resolveStart today s = Except.ok ds)
    (he : resolveEnd today e = Except.ok de) :
    list_episodes_in_range today s e feed =
      if de - ds > 366 then
        Except.error "The date range cannot exceed 12 months."
      else if ds > de then
        Except.error "start_date cannot be after end_date."
      else
        Except.ok (List.insertionSort dateLe
          (feed.filterMap (fun ep =>
            if ds ≤ ep.date ∧ ep.date ≤ de then some (ep.title, ep.date)
            else none))) := by
  unfold list_episodes_in_range
  rw [he, hs]

/-! ### Claim C7 -/

/-- C7: with resolved dates, a range of more than 366 days and a start
after the end are each rejected with a validation error that does not
depend on the feed (the fetch has not happened yet, so no partial work);
with no arguments the call returns exactly the episodes dated within
`[today - 90, today]`, sorted by ascending date. -/
theorem range_listing_validation (today : ℤ) :
    (∀ (s e : String) (ds de : ℤ) (feed : List FeedEpisode),
        resolveStart today s = Except.ok ds → resolveEnd today e = Except.ok de →
        de - ds > 366 →
        list_episodes_in_range today s e feed =
          Except.error "The date range cannot exceed 12 months.")
    ∧ (∀ (s e : String) (ds de : ℤ) (feed : List FeedEpisode),
        resolveStart today s = Except.ok ds → resolveEnd today e = Except.ok de →
        ds > de →
        list_episodes_in_range today s e feed =
          Except.error "start_date cannot be after end_date.")
    ∧ (∀ feed : List FeedEpisode, ∃ r,
        list_episodes_in_range today "" "" feed = Except.ok r
        ∧ List.Sorted dateLe r
        ∧ ∀ p, p ∈ r ↔ ∃ ep ∈ feed,
            (today - 90 ≤ ep.date ∧ ep.date ≤ today) ∧ p = (ep.title, ep.date)) := by
  refine ⟨?_, ?_, ?_⟩
  · intro s e ds de feed hs he hgt
    rw [list_episodes_in_range_resolved today s e ds de feed hs he, if_pos hgt]
  · intro s e ds de feed hs he hgt
    rw [list_episodes_in_range_resolved today s e ds de feed hs he,
        if_neg (by omega), if_pos hgt]
  · intro feed
    have hres := list_episodes_in_range_resolved today "" "" (today - 90) today feed
      rfl rfl
    rw [if_neg (by omega), if_neg (by omega)] at hres
    refine ⟨_, hres, List.sorted_insertionSort dateLe _, fun p => ?_⟩
    rw [(List.perm_insertionSort dateLe _).mem_iff, List.mem_filterMap]
    constructor
    · rintro ⟨ep, hep, hf⟩
      by_cases hc : today - 90 ≤ ep.date ∧ ep.date ≤ today
      · rw [if_pos hc] at hf
        exact ⟨ep, hep, hc, (Option.some_inj.mp hf).symm⟩
      · rw [if_neg hc] at hf
        cases hf
    · rintro ⟨ep, hep, hc, rfl⟩
      exact ⟨ep, hep, by rw [if_pos hc]⟩

def c7Feed : List FeedEpisode := [⟨"A", 738950⟩, ⟨"B", 738700⟩]

theorem range_listing_validation_witness :
    list_episodes_in_range 739000 "2024-01-01" "2025-06-01" [] =
        Except.error "The date range cannot exceed 12 months."
    ∧ list_episodes_in_range 739000 "2025-03-01" "2025-01-01" [] =
        Except.error "start_date cannot be after end_date."
    ∧ (∃ r, list_episodes_in_range 739000 "" "" c7Feed = Except.ok r
        ∧ List.Sorted dateLe r
        ∧ ∀ p, p ∈ r ↔ ∃ ep ∈ c7Feed,
            ((739000 : ℤ) - 90 ≤ ep.date ∧ ep.date ≤ 739000)
            ∧ p = (ep.title, ep.date)) := by
  refine ⟨?_, ?_, (range_listing_validation 739000).2.2 c7Feed⟩
  · exact (range_listing_validation 739000).1 "2024-01-01" "2025-06-01"
      (toOrdinal 2024 1 1) (toOrdinal 2025 6 1) [] rfl rfl (by decide)
  · exact (range_listing_validation 739000).2.1 "2025-03-01" "2025-01-01"
      (toOrdinal 2025 3 1) (toOrdinal 2025 1 1) [] rfl rfl (by decide)

/-! ### Claim C6 -/

/-- `get_episode_info_by_date` (src/rag_mcp/episode_info.py lines
169-195): parse the input; on parse failure return `None`; otherwise
return the first episode whose date equals the target date, or `None`
when there is none. -/
def get_episode_info_by_date (date_input : String) (feed : List FeedEpisode) :
    Option FeedEpisode :=
  match parse_date_input date_input with
  | none => none
  | some target => feed.find? (fun ep => ep.date == target)

/-- The single not-found message of the MCP tool `get_episode_info`
(src/rag_mcp/main.py line 165). -/
def notFoundMsg (date : String) : String :=
  "Error: No episode found for date \x27" ++ date ++
    "\x27. Please check the date format (YYYY-MM-DD) and try again."

/-- JSON rendering of a found episode (src/rag_mcp/main.py line 169). -/
def episodeInfoJson (ep : FeedEpisode) : String :=
  "\x7b\"title\": \"" ++ ep.title ++ "\", \"date\": " ++ toString ep.date ++ "\x7d"

/-- The MCP tool `get_episode_info` (src/rag_mcp/main.py lines 150-172). -/
def get_episode_info (date : String) (feed : List FeedEpisode) : String :=
  match get_episode_info_by_date date feed with
  | none => notFoundMsg date
  | some ep => episodeInfoJson ep

def c6Feed : List FeedEpisode := [⟨"Episode of 2025-07-08", toOrdinal 2025 7 8⟩]

/-- C6 counterexample: the malformed input "garbage" and the well-formed
input "2025-01-01" that matches no episode map to the same `None` outcome
of `get_episode_info_by_date` and to the same not-found message template
of `get_episode_info`, so the two cases are not distinguishable to the
caller. -/
theorem lookup_not_found_counterexample :
    parse_date_input "garbage" = none
    ∧ parse_date_input "2025-01-01" = some (toOrdinal 2025 1 1)
    ∧ (∀ ep ∈ c6Feed, ep.date ≠ toOrdinal 2025 1 1)
    ∧ get_episode_info_by_date "garbage" c6Feed =
        get_episode_info_by_date "2025-01-01" c6Feed
    ∧ get_episode_info "garbage" c6Feed = notFoundMsg "garbage"
    ∧ get_episode_info "2025-01-01" c6Feed = notFoundMsg "2025-01-01" := by
  refine ⟨rfl, rfl, by decide, rfl, rfl, rfl⟩

/-- C6 (amended): malformed dates and well-formed dates matching no
episode both produce the `None` outcome of `get_episode_info_by_date` and
hence the same single not-found message of `get_episode_info`; the caller
cannot distinguish the two cases. -/
theorem lookup_not_found_amended (s : String) (feed : List FeedEpisode) :
    (parse_date_input s = none →
      get_episode_info_by_date s feed = none
      ∧ get_episode_info s feed = notFoundMsg s)
    ∧ (∀ t : ℤ, parse_date_input s = some t → (∀ ep ∈ feed, ep.date ≠ t) →
      get_episode_info_by_date s feed = none
      ∧ get_episode_info s feed = notFoundMsg s) := by
  constructor
  · intro hp
    have h1 : get_episode_info_by_date s feed = none := by
      unfold get_episode_info_by_date
      rw [hp]
    exact ⟨h1, by unfold get_episode_info; rw [h1]⟩
  · intro t hp hne
    have h1 : get_episode_info_by_date s feed = none := by
      unfold get_episode_info_by_date
      rw [hp]
      show feed.find? (fun ep => ep.date == t) = none
      apply List.find?_eq_none.mpr
      intro ep hep
      simp [hne ep hep]
    exact ⟨h1, by unfold get_episode_info; rw [h1]⟩

theorem lookup_not_found_amended_witness :
    (get_episode_info_by_date "garbage" c6Feed = none
      ∧ get_episode_info "garbage" c6Feed = notFoundMsg "garbage")
    ∧ (get_episode_info_by_date "2025-01-01" c6Feed = none
      ∧ get_episode_info "2025-01-01" c6Feed = notFoundMsg "2025-01-01") :=
  ⟨(lookup_not_found_amended "garbage" c6Feed).1 rfl,
   (lookup_not_found_amended "2025-01-01" c6Feed).2 (toOrdinal 2025 1 1) rfl
     (by decide)⟩

/-! ## src/query/prefix.py — MetadataPrefixPostProcessor -/

/-- A retrieved node (`NodeWithScore`): its metadata mapping, its text
content (`get_content(metadata_mode=MetadataMode.NONE)` /
`set_content`), and its relevance score. -/
structure ScoredNode where
  metadata : List (String × String)
  content : String
  score : ℚ

/-- Python `metadata.get(key)`. -/
def metadataGet (metadata : List (String × String)) (key : String) :
    Option String :=
  (metadata.find? (fun kv => kv.1 == key)).map (fun kv => kv.2)

/-- The default separator `sep = " – "` of `MetadataPrefixPostProcessor`. -/
def DEFAULT_SEP : String := " – "

/-- `_postprocess_nodes` (src/query/prefix.py lines 14-24): for each node
in order, when `metadata.get(meta_key)` is truthy (present and non-empty)
set the content to the metadata value, the separator, then the original
content; otherwise leave the node untouched.  The list itself is returned,
so length and order are preserved. -/
def postprocessNodes (meta_key sep : String) (nodes : List ScoredNode) :
    List ScoredNode :=
  nodes.map (fun n =>
    match metadataGet n.metadata meta_key with
    | some m => if m ≠ "" then { n with content := m ++ sep ++ n.content } else n
    | none => n)

/-! ### Claim C10 -/

/-- C10: `_postprocess_nodes` returns a list of the same length pairing
each input node in order with its output node; a node with a truthy
metadata value `m` under `meta_key` gets content `m ++ " – " ++ original`
with metadata and score untouched, and a node without one (key absent, or
value the empty string) is returned entirely unchanged. -/
theorem postprocess_nodes_spec (meta_key : String) (nodes : List ScoredNode) :
    (postprocessNodes meta_key DEFAULT_SEP nodes).length = nodes.length
    ∧ List.Forall₂ (fun n r =>
        (∀ m, metadataGet n.metadata meta_key = some m → m ≠ "" →
          r.metadata = n.metadata
          ∧ r.content = m ++ DEFAULT_SEP ++ n.content
          ∧ r.score = n.score)
        ∧ ((metadataGet n.metadata meta_key = none
            ∨ metadataGet n.metadata meta_key = some "") → r = n))
      nodes (postprocessNodes meta_key DEFAULT_SEP nodes) := by
  constructor
  · simp [postprocessNodes]
  · unfold postprocessNodes
    induction nodes with
    | nil => exact List.Forall₂.nil
    | cons a t ih =>
      refine List.Forall₂.cons ⟨?_, ?_⟩ ih
      · intro m hm hne
        simp [hm, hne]
      · intro hcase
        rcases hcase with hnone | hempty
        · simp only [hnone]
        · simp [hempty]

def c10Nodes : List ScoredNode :=
  [⟨[("episode_date", "2025-07-08")], "text one", 1⟩, ⟨[], "text two", 2⟩]

theorem postprocess_nodes_spec_witness :
    (postprocessNodes "episode_date" DEFAULT_SEP c10Nodes).length = c10Nodes.length
    ∧ List.Forall₂ (fun n r =>
        (∀ m, metadataGet n.metadata "episode_date" = some m → m ≠ "" →
          r.metadata = n.metadata
          ∧ r.content = m ++ DEFAULT_SEP ++ n.content
          ∧ r.score = n.score)
        ∧ ((metadataGet n.metadata "episode_date" = none
            ∨ metadataGet n.metadata "episode_date" = some "") → r = n))
      c10Nodes (postprocessNodes "episode_date" DEFAULT_SEP c10Nodes) :=
  postprocess_nodes_spec "episode_date" c10Nodes
